import Mathlib

/-!
Shallow embedding of the cursor/viewport navigation primitives and the
raw-terminal event pipeline of the `rich-tea` repository, together with
theorems settling the specification claims about them.

Python integers are modelled as `ℤ`; Python lists as `List`; Python strings
as `List Char`; operations that can raise an exception return `Option`.
-/

namespace RichTea

/-- `saturating_add` from `rich_tea/util.py` (duplicated verbatim in
`rich_elm/list_select.py` and `rich_elm/list_view.py`):
`if (sum := i + a) > max: return max; return sum`. -/
def saturating_add (i a mx : ℤ) : ℤ :=
  if i + a > mx then mx else i + a

/-- `saturating_sub` from `rich_tea/util.py`:
`if (sum := i - s) < min: return min; return sum`. -/
def saturating_sub (i s mn : ℤ) : ℤ :=
  if i - s < mn then mn else i - s

/-- `max_index` from `rich_tea/util.py`: `len(l) - 1` (as a Python int, so it
is `-1` on an empty list). -/
def max_index {α : Type} (l : List α) : ℤ :=
  (l.length : ℤ) - 1

/-- `Select` from `rich_tea/util.py` / `rich_elm/list_select.py`:
an item wrapped with a `selected` flag. -/
structure Select (α : Type) where
  item : α
  selected : Bool
deriving DecidableEq, Repr

/-- `Select.toggle`: `self.selected = not self.selected`. -/
def Select.toggle {α : Type} (s : Select α) : Select α :=
  { s with selected := !s.selected }

/-- `Cursor` from `rich_elm/list_select.py`: a list of items plus an integer
cursor (default 0). -/
structure Cursor (α : Type) where
  items : List α
  cursor : ℤ
deriving DecidableEq, Repr

namespace Cursor

variable {α : Type}

/-- `Cursor.bump_up`: `self.cursor = saturating_sub(self.cursor, 1, 0)`. -/
def bump_up (c : Cursor α) : Cursor α :=
  { c with cursor := saturating_sub c.cursor 1 0 }

/-- `Cursor.bump_down`:
`self.cursor = saturating_add(self.cursor, 1, max_index(self.items))`. -/
def bump_down (c : Cursor α) : Cursor α :=
  { c with cursor := saturating_add c.cursor 1 (max_index c.items) }

/-- `Cursor.jump_to_top`: `self.cursor = 0`. -/
def jump_to_top (c : Cursor α) : Cursor α :=
  { c with cursor := 0 }

/-- `Cursor.jump_to_bottom`: `self.cursor = max_index(self.items)`. -/
def jump_to_bottom (c : Cursor α) : Cursor α :=
  { c with cursor := max_index c.items }

end Cursor

/-- The cursor invariant stated by the spec:
`0 <= position <= max(0, len(items)-1)`. -/
def CursorInv {α : Type} (c : Cursor α) : Prop :=
  0 ≤ c.cursor ∧ c.cursor ≤ max 0 (max_index c.items)

instance {α : Type} (c : Cursor α) : Decidable (CursorInv c) := by
  unfold CursorInv; infer_instance

/-- The viewport start index computed in `ListRender.__rich_console__` and
`ListSelectRender.__rich_console__` (`rich_elm/list_select.py`) and in
`ListViewRender.__rich_console__` (`rich_elm/list_view.py`):
`if cursor >= max_height: start = (cursor - max_height) + 1 else: start = 0`. -/
def window_start (cursor max_height : ℤ) : ℤ :=
  if cursor ≥ max_height then (cursor - max_height) + 1 else 0

/-- Python list indexing semantics: `l[i]` accepts `0 ≤ i < len` directly and
`-len ≤ i < 0` by wrapping from the end; anything else raises `IndexError`.
Returns the canonical non-negative index. -/
def pyIdx (n : ℕ) (i : ℤ) : Option ℕ :=
  if 0 ≤ i then (if i < (n : ℤ) then some i.toNat else none)
  else if 0 ≤ i + (n : ℤ) then some (i + (n : ℤ)).toNat
  else none

/-- Python `l[i]` on a list, with negative-index wrapping. -/
def pyGet {α : Type} (l : List α) (i : ℤ) : Option α :=
  (pyIdx l.length i).bind fun n => l.get? n

namespace list_view

/-- `Select` from `rich_elm/list_view.py` (field named `inner` there, unlike
the `item` field of the other `Select`). -/
structure Select (α : Type) where
  inner : α
  selected : Bool
deriving DecidableEq, Repr

/-- `ListView` from `rich_elm/list_view.py`. -/
structure ListView where
  candidates : List (Select String)
  cursor : ℤ
deriving DecidableEq, Repr

/-- `ListView.toggle_current`:
`cursored = self.candidates[self.cursor]; cursored.selected = not cursored.selected`.
The mutation of the aliased element is modelled by writing the flipped element
back at the same index; `none` models the `IndexError` raised when the cursor
does not index into `candidates`. -/
def ListView.toggle_current (v : ListView) : Option ListView :=
  match pyIdx v.candidates.length v.cursor with
  | none => none
  | some n =>
    match v.candidates.get? n with
    | none => none
    | some cursored =>
      some { v with
             candidates := v.candidates.set n
               { cursored with selected := !cursored.selected } }

end list_view

/-- `TreeData` from `rich_tea/tree_select.py`: an item, a list of child
subtrees, and a `collapsed` flag. -/
inductive TreeData (α : Type) where
  | mk (item : α) (children : List (TreeData α)) (collapsed : Bool)

/-- The `children` field of a `TreeData`. -/
def TreeData.children {α : Type} : TreeData α → List (TreeData α)
  | .mk _ cs _ => cs

/-- `TreeCursor` from `rich_tea/tree_select.py`: a tree of strings plus a
path of child indices (`cursor`, default `[]`). -/
structure TreeCursor where
  tree : TreeData String
  cursor : List ℤ

namespace TreeCursor

/-- `TreeCursor.at`:
`current = self.tree; for index in cursor: current = current.children[index]; return current`,
with `none` modelling the `IndexError` a dangling segment raises. -/
def at' (t : TreeData String) : List ℤ → Option (TreeData String)
  | [] => some t
  | i :: rest => (pyGet t.children i).bind fun c => at' c rest

/-- `TreeCursor.pointee_parent`:
`None` if the path is empty, else `self.at(self.cursor[:-1])`.
The outer `Option` models the `IndexError` `at` can raise; the inner one is
the Python `Optional`. -/
def pointee_parent (c : TreeCursor) : Option (Option (TreeData String)) :=
  if c.cursor.length = 0 then some none
  else (at' c.tree c.cursor.dropLast).map some

/-- Python `self.cursor[-1] = v` on a non-empty list: replace the last
element. -/
def setLast (l : List ℤ) (v : ℤ) : List ℤ :=
  l.dropLast ++ [v]

/-- `TreeCursor.bump_up`: if the pointee has a parent,
`self.cursor[-1] = saturating_sub(self.cursor[-1], 1, 0)`. -/
def bump_up (c : TreeCursor) : Option TreeCursor :=
  match pointee_parent c with
  | none => none
  | some none => some c
  | some (some _) =>
    some { c with cursor := setLast c.cursor
                    (saturating_sub (c.cursor.getLastD 0) 1 0) }

/-- `TreeCursor.bump_down`: if the pointee has a parent,
`self.cursor[-1] = saturating_add(self.cursor[-1], 1, max_index(parent.children))`. -/
def bump_down (c : TreeCursor) : Option TreeCursor :=
  match pointee_parent c with
  | none => none
  | some none => some c
  | some (some parent) =>
    some { c with cursor := setLast c.cursor
                    (saturating_add (c.cursor.getLastD 0) 1
                      (max_index parent.children)) }

/-- `TreeCursor.bump_deeper`:
`if len(self.at(self.cursor).children) >= 1: self.cursor.append(0)`. -/
def bump_deeper (c : TreeCursor) : Option TreeCursor :=
  match at' c.tree c.cursor with
  | none => none
  | some t =>
    if 1 ≤ t.children.length then some { c with cursor := c.cursor ++ [0] }
    else some c

/-- `TreeCursor.bump_shallower`:
`if len(self.cursor) > 1: self.cursor.pop()`. -/
def bump_shallower (c : TreeCursor) : TreeCursor :=
  if 1 < c.cursor.length then { c with cursor := c.cursor.dropLast } else c

end TreeCursor

/-- Index lookup with no negative-index wrapping: a path segment is a valid
child index only when `0 ≤ i < len`, matching the spec's "`path[i]` indexes
within the children". -/
def strictGet {α : Type} (l : List α) (i : ℤ) : Option α :=
  if 0 ≤ i then l.get? i.toNat else none

/-- Resolve a path from a node, requiring every segment to be a canonical
in-range child index. -/
def resolveStrict (t : TreeData String) : List ℤ → Option (TreeData String)
  | [] => some t
  | i :: rest => (strictGet t.children i).bind fun c => resolveStrict c rest

/-- The tree-cursor invariant: the path is a valid chain of child indices
resolving to a live node. -/
def TreeCursorInv (c : TreeCursor) : Prop :=
  (resolveStrict c.tree c.cursor).isSome

/-- Python slice endpoint semantics for `s[:i]` / `s[i:]`: a non-negative
index is clamped to the length, a negative index counts from the end and is
clamped to 0. -/
def pyStop (n : ℕ) (i : ℤ) : ℕ :=
  if 0 ≤ i then min i.toNat n else ((n : ℤ) + i).toNat

/-- Python `s[:i]` on a string (modelled as `List Char`). -/
def sliceTo (s : List Char) (i : ℤ) : List Char :=
  s.take (pyStop s.length i)

/-- Python `s[i:]` on a string. -/
def sliceFrom (s : List Char) (i : ℤ) : List Char :=
  s.drop (pyStop s.length i)

/-- A word character for the purpose of `re`'s `\b`; modelled as
alphanumeric-or-underscore (the ASCII core of Python's Unicode `\w`). -/
def isWordChar (c : Char) : Bool :=
  c.isAlphanum || c = '_'

/-- Whether position `i` of `s` holds a word character (out of range counts
as non-word). -/
def wordAt (s : List Char) (i : ℕ) : Bool :=
  ((s.get? i).map isWordChar).getD false

/-- `re`'s `\b` matches at position `i` iff exactly one of the characters on
either side of `i` is a word character. -/
def isBoundary (s : List Char) (i : ℕ) : Bool :=
  (if i = 0 then false else wordAt s (i - 1)) != wordAt s i

/-- `TextCursor` from `rich_tea/text_box.py`: a string and an integer
cursor. -/
structure TextCursor where
  text : List Char
  cursor : ℤ
deriving DecidableEq, Repr

namespace TextCursor

/-- `TextCursor.before_cursor`: `self.text[: self.cursor]`. -/
def before_cursor (tc : TextCursor) : List Char :=
  sliceTo tc.text tc.cursor

/-- `TextCursor.after_cursor`: `self.text[self.cursor :]`. -/
def after_cursor (tc : TextCursor) : List Char :=
  sliceFrom tc.text tc.cursor

/-- `TextCursor.bump_left`: `self.cursor = saturating_sub(self.cursor, 1, 0)`. -/
def bump_left (tc : TextCursor) : TextCursor :=
  { tc with cursor := saturating_sub tc.cursor 1 0 }

/-- `TextCursor.bump_right`:
`self.cursor = saturating_add(self.cursor, 1, len(self.text))`. -/
def bump_right (tc : TextCursor) : TextCursor :=
  { tc with cursor := saturating_add tc.cursor 1 (tc.text.length : ℤ) }

/-- `TextCursor.jump_to_left`: `self.cursor = 0`. -/
def jump_to_left (tc : TextCursor) : TextCursor :=
  { tc with cursor := 0 }

/-- `TextCursor.jump_to_right`: `self.cursor = len(self.text)`. -/
def jump_to_right (tc : TextCursor) : TextCursor :=
  { tc with cursor := (tc.text.length : ℤ) }

/-- `TextCursor.insert`: raises unless `len(char) == 1` (`none`), else
`self.text = before_cursor + char + after_cursor; self.cursor += 1`. -/
def insert (tc : TextCursor) (char : List Char) : Option TextCursor :=
  if char.length ≠ 1 then none
  else some { text := before_cursor tc ++ char ++ after_cursor tc,
              cursor := tc.cursor + 1 }

/-- `TextCursor.remove_left`:
`self.text = before_cursor[:-1] + after_cursor; self.cursor = saturating_sub(self.cursor, 1, 0)`. -/
def remove_left (tc : TextCursor) : TextCursor :=
  { text := sliceTo (before_cursor tc) (-1) ++ after_cursor tc,
    cursor := saturating_sub tc.cursor 1 0 }

/-- `TextCursor.remove_right`:
`self.text = before_cursor + after_cursor[1:]` (cursor unchanged). -/
def remove_right (tc : TextCursor) : TextCursor :=
  { tc with text := before_cursor tc ++ sliceFrom (after_cursor tc) 1 }

/-- `TextCursor.word_boundaries`: the positions in `[0, len(text)]` where
`\b` matches, in increasing order. -/
def word_boundaries (tc : TextCursor) : List ℤ :=
  ((List.range (tc.text.length + 1)).filter fun i => isBoundary tc.text i).map
    Int.ofNat

/-- `TextCursor.bump_left_by_word`: the last word boundary strictly left of
the cursor, or the cursor itself if there is none. -/
def bump_left_by_word (tc : TextCursor) : TextCursor :=
  { tc with cursor :=
      ((((word_boundaries tc).reverse.filter fun i => i < tc.cursor).head?).getD
        tc.cursor) }

/-- `TextCursor.bump_right_by_word`: the first word boundary strictly right
of the cursor, or the cursor itself if there is none. -/
def bump_right_by_word (tc : TextCursor) : TextCursor :=
  { tc with cursor :=
      ((((word_boundaries tc).filter fun i => tc.cursor < i).head?).getD
        tc.cursor) }

/-- `TextCursor.remove_left_word`:
`cached_after = self.after_cursor; self.bump_left_by_word(); self.text = self.before_cursor + cached_after`. -/
def remove_left_word (tc : TextCursor) : TextCursor :=
  let cached_after := after_cursor tc
  let tc2 := bump_left_by_word tc
  { text := before_cursor tc2 ++ cached_after, cursor := tc2.cursor }

end TextCursor

/-- The text-cursor invariant: `0 <= cursor <= len(text)`. -/
def TextCursorInv (tc : TextCursor) : Prop :=
  0 ≤ tc.cursor ∧ tc.cursor ≤ (tc.text.length : ℤ)

instance (tc : TextCursor) : Decidable (TextCursorInv tc) := by
  unfold TextCursorInv; infer_instance

namespace events

/-- The side effects of `for_stdin` (`rich_tea/events.py` and
`rich_elm/events.py`) that touch process state, in program order:
`termios.tcsetattr` calls, setting the `die` flag, joining the reader
thread, and `closing(selector)`. `A` is the type of terminal-attribute
records (Python's `tcgetattr` list). -/
inductive TermOp (A : Type) where
  | tcsetattr (attrs : A)
  | setDie
  | joinThread
  | closeSelector

/-- How the `with for_stdin(...)` body exits: a normal (or early) return, or
an exception propagating out of the scope. -/
inductive Outcome where
  | ok
  | exn

/-- The operation trace of one execution of the `for_stdin` context manager:
`old = tcgetattr(fileno)` snapshots the attributes at entry, `raw old` is the
modified copy (echo/canonical/flow-control flags cleared, `VMIN = 1`) applied
by `tcsetattr(TCSANOW, new)`; then the body runs (contributing `body`, which
may itself set attributes); on a normal exit the `die`-flag store and the
thread join run; on either exit the `finally` block restores the snapshot
with `tcsetattr(old)` before `closing(selector)` completes. -/
def for_stdin_ops {A : Type} (raw : A → A) (old : A) (body : List (TermOp A))
    (out : Outcome) : List (TermOp A) :=
  [TermOp.tcsetattr (raw old)] ++ body ++
    (match out with
     | .ok => [TermOp.setDie, TermOp.joinThread]
     | .exn => []) ++
    [TermOp.tcsetattr old, TermOp.closeSelector]

/-- The terminal attributes after running a trace of operations from a given
attribute state: each `tcsetattr` overwrites them, nothing else touches
them. -/
def finalAttrs {A : Type} (attrs : A) : List (TermOp A) → A
  | [] => attrs
  | TermOp.tcsetattr a :: rest => finalAttrs a rest
  | TermOp.setDie :: rest => finalAttrs attrs rest
  | TermOp.joinThread :: rest => finalAttrs attrs rest
  | TermOp.closeSelector :: rest => finalAttrs attrs rest

end events

namespace list_select

/-- The named keys from `prompt_toolkit.keys.Keys` that the examples
dispatch on, plus representative further members of that enum. -/
inductive Keys where
  | up | down | left | right | home | endKey | tab | enter
  | backspace | delete | escape
  | controlA | controlE | controlU | controlW | controlLeft | controlRight
deriving DecidableEq, Repr

/-- One event pulled from the queue in `list_viewer_safe`
(`rich_elm/list_select.py`): a `Signal`, a `KeyPress` whose `.key` is a
`Keys` member, or a `KeyPress` whose `.key` is a plain string. -/
inductive Event where
  | signal (signum : ℤ)
  | key (k : Keys)
  | char (s : String)
deriving DecidableEq, Repr

/-- What one iteration of the `while event := queue.get()` loop does. -/
inductive Step where
  | next (state : Cursor (Select String))
  | done (result : List String)
  | notImplemented
deriving DecidableEq, Repr

/-- `set(candidate.item for candidate in state.items if candidate.selected)`,
modelled as the list of selected items in order. -/
def selected_items (state : Cursor (Select String)) : List String :=
  (state.items.filter fun c => c.selected).map fun c => c.item

/-- The body of the event loop of `list_viewer_safe` in
`rich_elm/list_select.py`, lines 201-230: `Signal` redraws and continues;
recognized `Keys` members mutate the cursor (or return the selection on
`Enter`); any other `Keys` member raises `NotImplementedError`; a string key
returns the selection on `"q"` and otherwise falls through the dispatch with
no effect. The outer `Option` models the `IndexError` the `Tab` branch can
raise on an out-of-range cursor. -/
def step (state : Cursor (Select String)) : Event → Option Step
  | .signal _ => some (.next state)
  | .key k =>
    match k with
    | .up | .left => some (.next state.bump_up)
    | .down | .right => some (.next state.bump_down)
    | .tab =>
      (pyIdx state.items.length state.cursor).bind fun n =>
        (state.items.get? n).map fun it =>
          .next { state with items := state.items.set n it.toggle }
    | .home => some (.next state.jump_to_top)
    | .endKey => some (.next state.jump_to_bottom)
    | .enter => some (.done (selected_items state))
    | _ => some .notImplemented
  | .char s =>
    if s = "q" then some (.done (selected_items state)) else some (.next state)

end list_select

/-! ## Helper lemmas -/

/-- Running a concatenated trace is running the pieces in order. -/
theorem finalAttrs_append {A : Type} (a : A) (l m : List (events.TermOp A)) :
    events.finalAttrs a (l ++ m) = events.finalAttrs (events.finalAttrs a l) m := by
  induction l generalizing a with
  | nil => rfl
  | cons op rest ih => cases op <;> simp [events.finalAttrs, ih]

/-- A strict child lookup succeeds exactly on canonical in-range indices. -/
theorem strictGet_isSome_iff {α : Type} (l : List α) (i : ℤ) :
    (strictGet l i).isSome ↔ 0 ≤ i ∧ i.toNat < l.length := by
  unfold strictGet
  split_ifs with h0
  · rw [List.get?_eq_getElem?, Option.isSome_iff_exists]
    constructor
    · rintro ⟨a, ha⟩
      exact ⟨h0, (List.getElem?_eq_some_iff.mp ha).1⟩
    · rintro ⟨-, hlt⟩
      exact ⟨l[i.toNat], List.getElem?_eq_getElem hlt⟩
  · simp [h0]

/-- Strict resolution over a concatenated path factors through the first
part. -/
theorem resolveStrict_append (t : TreeData String) (p q : List ℤ) :
    resolveStrict t (p ++ q) =
      (resolveStrict t p).bind fun n => resolveStrict n q := by
  induction p generalizing t with
  | nil => rfl
  | cons i rest ih =>
    simp only [List.cons_append, resolveStrict]
    cases strictGet t.children i with
    | none => rfl
    | some c => exact ih c

/-- A lookup that succeeds strictly also succeeds with Python's wrapping
indexing. -/
theorem pyGet_of_strictGet {α : Type} {l : List α} {i : ℤ} {a : α}
    (h : strictGet l i = some a) : pyGet l i = some a := by
  unfold strictGet at h
  split_ifs at h with h0
  · rw [List.get?_eq_getElem?] at h
    have hlt : i.toNat < l.length := (List.getElem?_eq_some_iff.mp h).1
    unfold pyGet pyIdx
    rw [if_pos h0, if_pos (by omega : i < (l.length : ℤ))]
    show l.get? i.toNat = some a
    rw [List.get?_eq_getElem?]
    exact h

/-- A path that resolves strictly is also resolved by `TreeCursor.at`
(which uses Python indexing). -/
theorem at'_of_resolveStrict {t : TreeData String} {p : List ℤ}
    {n : TreeData String} (h : resolveStrict t p = some n) :
    TreeCursor.at' t p = some n := by
  induction p generalizing t with
  | nil => exact h
  | cons i rest ih =>
    unfold resolveStrict at h
    cases hg : strictGet t.children i with
    | none => rw [hg] at h; simp at h
    | some c =>
      rw [hg] at h
      have h' : resolveStrict c rest = some n := h
      show (pyGet t.children i).bind _ = _
      rw [pyGet_of_strictGet hg]
      exact ih h'

/-- Extending a strictly-resolving path by one in-range child index keeps it
resolving. -/
theorem inv_append_single {t parent : TreeData String} {p : List ℤ} {j : ℤ}
    (hp : resolveStrict t p = some parent)
    (h0 : 0 ≤ j) (hj : j.toNat < parent.children.length) :
    (resolveStrict t (p ++ [j])).isSome := by
  rw [resolveStrict_append, hp]
  show ((strictGet parent.children j).bind fun n => resolveStrict n []).isSome
  obtain ⟨a, ha⟩ := Option.isSome_iff_exists.mp
    ((strictGet_isSome_iff parent.children j).mpr ⟨h0, hj⟩)
  rw [ha]
  rfl

/-- A resolving path ending in a segment factors into a resolving prefix
and an in-range last child index. -/
theorem inv_concat_elim {t : TreeData String} {p : List ℤ} {i : ℤ}
    (h : (resolveStrict t (p ++ [i])).isSome) :
    ∃ parent, resolveStrict t p = some parent ∧
      0 ≤ i ∧ i.toNat < parent.children.length := by
  rw [resolveStrict_append] at h
  cases hp : resolveStrict t p with
  | none => rw [hp] at h; simp at h
  | some parent =>
    rw [hp] at h
    have h2 : ((strictGet parent.children i).bind
        fun n => resolveStrict n []).isSome := h
    cases hg : strictGet parent.children i with
    | none => rw [hg] at h2; simp at h2
    | some n =>
      have hb := (strictGet_isSome_iff parent.children i).mp (by rw [hg]; rfl)
      exact ⟨parent, rfl, hb.1, hb.2⟩

/-- `bump_up` on a strictly valid cursor does not raise and keeps the path
valid. -/
theorem bump_up_preserves (t : TreeData String) (cur : List ℤ)
    (h : (resolveStrict t cur).isSome) :
    ∃ c', TreeCursor.bump_up ⟨t, cur⟩ = some c' ∧ TreeCursorInv c' := by
  rcases List.eq_nil_or_concat cur with hnil | ⟨p, i, hcat⟩
  · subst hnil
    exact ⟨⟨t, []⟩, rfl, h⟩
  · rw [List.concat_eq_append] at hcat
    subst hcat
    obtain ⟨parent, hp, hi0, hilt⟩ := inv_concat_elim h
    have hpp : TreeCursor.pointee_parent ⟨t, p ++ [i]⟩ = some (some parent) := by
      unfold TreeCursor.pointee_parent
      rw [if_neg (by simp)]
      simp [List.dropLast_concat, at'_of_resolveStrict hp]
    refine ⟨⟨t, p ++ [saturating_sub i 1 0]⟩, ?_, ?_⟩
    · unfold TreeCursor.bump_up
      rw [hpp]
      simp [TreeCursor.setLast, List.dropLast_concat, List.getLastD_concat]
    · exact inv_append_single hp
        (by unfold saturating_sub; split_ifs <;> omega)
        (by unfold saturating_sub; split_ifs <;> omega)

/-- `bump_down` on a strictly valid cursor does not raise and keeps the
path valid. -/
theorem bump_down_preserves (t : TreeData String) (cur : List ℤ)
    (h : (resolveStrict t cur).isSome) :
    ∃ c', TreeCursor.bump_down ⟨t, cur⟩ = some c' ∧ TreeCursorInv c' := by
  rcases List.eq_nil_or_concat cur with hnil | ⟨p, i, hcat⟩
  · subst hnil
    exact ⟨⟨t, []⟩, rfl, h⟩
  · rw [List.concat_eq_append] at hcat
    subst hcat
    obtain ⟨parent, hp, hi0, hilt⟩ := inv_concat_elim h
    have hpp : TreeCursor.pointee_parent ⟨t, p ++ [i]⟩ = some (some parent) := by
      unfold TreeCursor.pointee_parent
      rw [if_neg (by simp)]
      simp [List.dropLast_concat, at'_of_resolveStrict hp]
    refine ⟨⟨t, p ++ [saturating_add i 1 (max_index parent.children)]⟩, ?_, ?_⟩
    · unfold TreeCursor.bump_down
      rw [hpp]
      simp [TreeCursor.setLast, List.dropLast_concat, List.getLastD_concat]
    · exact inv_append_single hp
        (by unfold saturating_add max_index; split_ifs <;> omega)
        (by unfold saturating_add max_index; split_ifs <;> omega)

/-- `bump_deeper` on a strictly valid cursor does not raise and keeps the
path valid. -/
theorem bump_deeper_preserves (t : TreeData String) (cur : List ℤ)
    (h : (resolveStrict t cur).isSome) :
    ∃ c', TreeCursor.bump_deeper ⟨t, cur⟩ = some c' ∧ TreeCursorInv c' := by
  obtain ⟨node, hnode⟩ := Option.isSome_iff_exists.mp h
  by_cases hc : 1 ≤ node.children.length
  · refine ⟨⟨t, cur ++ [0]⟩, ?_, ?_⟩
    · unfold TreeCursor.bump_deeper
      rw [at'_of_resolveStrict hnode]
      simp [hc]
    · exact inv_append_single hnode (by omega) (by omega)
  · refine ⟨⟨t, cur⟩, ?_, h⟩
    unfold TreeCursor.bump_deeper
    rw [at'_of_resolveStrict hnode]
    simp [hc]

/-- `bump_shallower` keeps a strictly valid path valid. -/
theorem bump_shallower_preserves (t : TreeData String) (cur : List ℤ)
    (h : (resolveStrict t cur).isSome) :
    TreeCursorInv (TreeCursor.bump_shallower ⟨t, cur⟩) := by
  unfold TreeCursor.bump_shallower
  split_ifs with hlen
  · rcases List.eq_nil_or_concat cur with hnil | ⟨p, i, hcat⟩
    · subst hnil; simp at hlen
    · rw [List.concat_eq_append] at hcat
      subst hcat
      obtain ⟨parent, hp, -, -⟩ := inv_concat_elim h
      show (resolveStrict t (p ++ [i]).dropLast).isSome
      rw [List.dropLast_concat, hp]
      rfl
  · exact h

end RichTea

namespace RichTea

/-- A slice endpoint within `[0, n]` is just its absolute value. -/
theorem pyStop_of_nonneg_le (n : ℕ) (i : ℤ) (h0 : 0 ≤ i) (h1 : i ≤ (n : ℤ)) :
    pyStop n i = i.toNat := by
  unfold pyStop
  rw [if_pos h0]
  omega

/-- Under the invariant, `before_cursor` has exactly `cursor` characters. -/
theorem length_before_cursor (tc : TextCursor) (h : TextCursorInv tc) :
    (TextCursor.before_cursor tc).length = tc.cursor.toNat := by
  unfold TextCursor.before_cursor sliceTo
  rw [pyStop_of_nonneg_le _ _ h.1 h.2, List.length_take]
  have := h.2
  omega

/-- Under the invariant, `after_cursor` has the remaining characters. -/
theorem length_after_cursor (tc : TextCursor) (h : TextCursorInv tc) :
    (TextCursor.after_cursor tc).length = tc.text.length - tc.cursor.toNat := by
  unfold TextCursor.after_cursor sliceFrom
  rw [pyStop_of_nonneg_le _ _ h.1 h.2, List.length_drop]

/-- Every word boundary lies in `[0, len(text)]`. -/
theorem word_boundaries_mem_bound (tc : TextCursor) (x : ℤ)
    (hx : x ∈ TextCursor.word_boundaries tc) :
    0 ≤ x ∧ x ≤ (tc.text.length : ℤ) := by
  unfold TextCursor.word_boundaries at hx
  obtain ⟨i, hi, rfl⟩ := List.mem_map.mp hx
  have hir := (List.mem_filter.mp hi).1
  rw [List.mem_range] at hir
  constructor
  · show (0 : ℤ) ≤ (i : ℤ)
    omega
  · show (i : ℤ) ≤ (tc.text.length : ℤ)
    omega

/-- `bump_left_by_word` never moves the cursor right, never below 0 (when it
moves at all), and leaves the text unchanged. -/
theorem bump_left_by_word_le (tc : TextCursor) :
    ((TextCursor.bump_left_by_word tc).cursor = tc.cursor ∨
      (0 ≤ (TextCursor.bump_left_by_word tc).cursor ∧
       (TextCursor.bump_left_by_word tc).cursor < tc.cursor)) ∧
    (TextCursor.bump_left_by_word tc).text = tc.text := by
  unfold TextCursor.bump_left_by_word
  cases hh : ((TextCursor.word_boundaries tc).reverse.filter
      fun i => i < tc.cursor).head? with
  | none => simp [hh]
  | some x =>
    simp only [hh, Option.getD_some]
    refine ⟨Or.inr ?_, trivial⟩
    have hmem := List.mem_of_mem_head? hh
    rw [List.mem_filter] at hmem
    have hx := word_boundaries_mem_bound tc x (List.mem_reverse.mp hmem.1)
    have hlt : x < tc.cursor := by
      have := hmem.2
      simpa using this
    exact ⟨hx.1, hlt⟩

/-- `bump_right_by_word` preserves the invariant. -/
theorem bump_right_by_word_bounds (tc : TextCursor) (h : TextCursorInv tc) :
    TextCursorInv (TextCursor.bump_right_by_word tc) := by
  obtain ⟨h0, h1⟩ := h
  unfold TextCursor.bump_right_by_word TextCursorInv
  cases hh : ((TextCursor.word_boundaries tc).filter
      fun i => tc.cursor < i).head? with
  | none =>
    simp only [hh, Option.getD_none]
    exact ⟨h0, h1⟩
  | some x =>
    simp only [hh, Option.getD_some]
    have hmem := List.mem_of_mem_head? hh
    rw [List.mem_filter] at hmem
    exact word_boundaries_mem_bound tc x hmem.1

/-- C9: over a fixed tree, every `TreeCursor` mutator (`bump_up`,
`bump_down`, `bump_deeper`, `bump_shallower`) preserves the invariant that
the path is a valid chain of child indices resolving to a live node, and
none of them raises on a valid cursor: steps that would leave the valid
sibling range clamp or no-op instead. -/
theorem tree_mutators_preserve_inv (c : TreeCursor) (h : TreeCursorInv c) :
    (∃ c', TreeCursor.bump_up c = some c' ∧ TreeCursorInv c') ∧
    (∃ c', TreeCursor.bump_down c = some c' ∧ TreeCursorInv c') ∧
    (∃ c', TreeCursor.bump_deeper c = some c' ∧ TreeCursorInv c') ∧
    TreeCursorInv (TreeCursor.bump_shallower c) := by
  obtain ⟨t, cur⟩ := c
  exact ⟨bump_up_preserves t cur h, bump_down_preserves t cur h,
    bump_deeper_preserves t cur h, bump_shallower_preserves t cur h⟩

/-- Witness for C9 at a two-node tree with the cursor on the only child. -/
theorem tree_mutators_preserve_inv_witness :
    (∃ c', TreeCursor.bump_up
        ⟨.mk "r" [.mk "a" [] false] false, [0]⟩ = some c' ∧
      TreeCursorInv c') ∧
    (∃ c', TreeCursor.bump_down
        ⟨.mk "r" [.mk "a" [] false] false, [0]⟩ = some c' ∧
      TreeCursorInv c') ∧
    (∃ c', TreeCursor.bump_deeper
        ⟨.mk "r" [.mk "a" [] false] false, [0]⟩ = some c' ∧
      TreeCursorInv c') ∧
    TreeCursorInv (TreeCursor.bump_shallower
      ⟨.mk "r" [.mk "a" [] false] false, [0]⟩) :=
  tree_mutators_preserve_inv ⟨.mk "r" [.mk "a" [] false] false, [0]⟩ (by rfl)

/-- C3 counterexample: at the root (empty path) of a tree with one child,
`descend()` (`bump_deeper`) moves the path to `[0]`, but `ascend()`
(`bump_shallower`) then leaves it at `[0]` instead of restoring `[]`. -/
theorem descend_ascend_root_counterexample :
    (TreeCursor.bump_deeper ⟨.mk "r" [.mk "a" [] false] false, []⟩).map
        TreeCursor.bump_shallower =
      some ⟨.mk "r" [.mk "a" [] false] false, [0]⟩ ∧
    ([0] : List ℤ) ≠ [] := by
  exact ⟨rfl, by decide⟩

/-- C3 (amended): for every tree cursor whose path is non-empty and whose
current node has at least one child, `descend()` followed by `ascend()`
restores the original path; at the root (empty path) the round trip leaves
the path at `[0]` instead. -/
theorem descend_ascend_roundtrip (c : TreeCursor) (node : TreeData String)
    (hne : c.cursor ≠ [])
    (hat : TreeCursor.at' c.tree c.cursor = some node)
    (hchild : 1 ≤ node.children.length) :
    (TreeCursor.bump_deeper c).map TreeCursor.bump_shallower = some c := by
  have hdeep : TreeCursor.bump_deeper c = some ⟨c.tree, c.cursor ++ [0]⟩ := by
    unfold TreeCursor.bump_deeper
    rw [hat]
    simp [hchild]
  have hlen : 1 < (c.cursor ++ [0]).length := by
    have h0 : 0 < c.cursor.length := List.length_pos.mpr hne
    simp only [List.length_append, List.length_cons, List.length_nil]
    omega
  rw [hdeep, Option.map_some']
  unfold TreeCursor.bump_shallower
  rw [if_pos hlen]
  simp [List.dropLast_concat]

/-- Witness for C3 (amended): a cursor at path `[0]` on a grandchild tree. -/
theorem descend_ascend_roundtrip_witness :
    (TreeCursor.bump_deeper
        ⟨.mk "r" [.mk "a" [.mk "b" [] false] false] false, [0]⟩).map
      TreeCursor.bump_shallower =
      some ⟨.mk "r" [.mk "a" [.mk "b" [] false] false] false, [0]⟩ :=
  descend_ascend_roundtrip
    ⟨.mk "r" [.mk "a" [.mk "b" [] false] false] false, [0]⟩
    (.mk "a" [.mk "b" [] false] false) (by decide) (by rfl) (by decide)

/-- C4 counterexample: at the non-empty path `[0]`, `ascend()`
(`bump_shallower`) is a no-op instead of removing the last segment. -/
theorem ascend_depth_one_counterexample :
    TreeCursor.bump_shallower ⟨.mk "r" [.mk "a" [] false] false, [0]⟩ =
      ⟨.mk "r" [.mk "a" [] false] false, [0]⟩ ∧
    ([0] : List ℤ).dropLast ≠ [0] := by
  exact ⟨rfl, by decide⟩

/-- C4 (amended): `ascend()` removes exactly the last path segment when the
path has at least two segments, leaving the tree and the rest of the path
unchanged; when the path has at most one segment (the root, or a child of
the root) it is a no-op. -/
theorem ascend_pops_last_segment (c : TreeCursor) :
    (2 ≤ c.cursor.length →
      TreeCursor.bump_shallower c = ⟨c.tree, c.cursor.dropLast⟩) ∧
    (c.cursor.length ≤ 1 → TreeCursor.bump_shallower c = c) := by
  unfold TreeCursor.bump_shallower
  constructor
  · intro h2
    rw [if_pos (by omega)]
  · intro h1
    rw [if_neg (by omega)]

/-- Witness for C4 (amended) at paths `[0, 1]` and `[0]`. -/
theorem ascend_pops_last_segment_witness :
    (2 ≤ ([0, 1] : List ℤ).length →
      TreeCursor.bump_shallower ⟨.mk "r" [] false, [0, 1]⟩ =
        ⟨.mk "r" [] false, ([0, 1] : List ℤ).dropLast⟩) ∧
    (([0, 1] : List ℤ).length ≤ 1 →
      TreeCursor.bump_shallower ⟨.mk "r" [] false, [0, 1]⟩ =
        ⟨.mk "r" [] false, [0, 1]⟩) :=
  ascend_pops_last_segment ⟨.mk "r" [] false, [0, 1]⟩

/-- C10: every `TextCursor` operation — `bump_left`, `bump_right`,
`jump_to_left`, `jump_to_right`, `insert` of a single character,
`remove_left`, `remove_right`, `bump_left_by_word`, `bump_right_by_word`,
`remove_left_word` — preserves `0 ≤ cursor ≤ len(text)`; and `remove_left`
with the cursor at 0 leaves both text and cursor unchanged. -/
theorem text_cursor_ops_preserve_inv (tc : TextCursor) (h : TextCursorInv tc) :
    TextCursorInv tc.bump_left ∧ TextCursorInv tc.bump_right ∧
    TextCursorInv tc.jump_to_left ∧ TextCursorInv tc.jump_to_right ∧
    (∀ ch : Char, ∃ tc', tc.insert [ch] = some tc' ∧ TextCursorInv tc') ∧
    TextCursorInv tc.remove_left ∧ TextCursorInv tc.remove_right ∧
    TextCursorInv tc.bump_left_by_word ∧
    TextCursorInv tc.bump_right_by_word ∧
    TextCursorInv tc.remove_left_word ∧
    (tc.cursor = 0 → tc.remove_left = tc) := by
  obtain ⟨h0, h1⟩ := h
  have hb := length_before_cursor tc ⟨h0, h1⟩
  have ha := length_after_cursor tc ⟨h0, h1⟩
  refine ⟨?_, ?_, ?_, ?_, ?_, ?_, ?_, ?_, ?_, ?_, ?_⟩
  · unfold TextCursorInv
    simp only [TextCursor.bump_left]
    unfold saturating_sub
    split_ifs <;> omega
  · unfold TextCursorInv
    simp only [TextCursor.bump_right]
    unfold saturating_add
    split_ifs <;> omega
  · unfold TextCursorInv
    simp only [TextCursor.jump_to_left]
    omega
  · unfold TextCursorInv
    simp only [TextCursor.jump_to_right]
    omega
  · intro ch
    refine ⟨⟨TextCursor.before_cursor tc ++ [ch] ++ TextCursor.after_cursor tc,
        tc.cursor + 1⟩, ?_, ?_⟩
    · unfold TextCursor.insert
      simp
    · unfold TextCursorInv
      simp only [List.length_append, hb, ha, List.length_cons,
        List.length_nil]
      omega
  · have hsl : (sliceTo (TextCursor.before_cursor tc) (-1)).length =
        tc.cursor.toNat - 1 := by
      unfold sliceTo pyStop
      rw [if_neg (by norm_num), List.length_take, hb]
      omega
    unfold TextCursorInv
    simp only [TextCursor.remove_left, List.length_append, hsl, ha]
    unfold saturating_sub
    split_ifs <;> omega
  · have hsr : (sliceFrom (TextCursor.after_cursor tc) 1).length =
        tc.text.length - tc.cursor.toNat -
          min 1 (tc.text.length - tc.cursor.toNat) := by
      unfold sliceFrom pyStop
      rw [if_pos (by norm_num), List.length_drop, ha]
      omega
    unfold TextCursorInv
    simp only [TextCursor.remove_right, List.length_append, hb, hsr]
    omega
  · obtain ⟨hor, htext⟩ := bump_left_by_word_le tc
    unfold TextCursorInv
    rw [htext]
    rcases hor with he | ⟨hg0, hlt⟩
    · rw [he]
      exact ⟨h0, h1⟩
    · exact ⟨hg0, by omega⟩
  · exact bump_right_by_word_bounds tc ⟨h0, h1⟩
  · obtain ⟨hor, htext⟩ := bump_left_by_word_le tc
    have hc2_0 : 0 ≤ (TextCursor.bump_left_by_word tc).cursor := by
      rcases hor with he | hlow
      · rw [he]; exact h0
      · exact hlow.1
    have hc2_le : (TextCursor.bump_left_by_word tc).cursor ≤ tc.cursor := by
      rcases hor with he | hlow
      · rw [he]
      · omega
    have hinv2 : TextCursorInv (TextCursor.bump_left_by_word tc) := by
      unfold TextCursorInv
      rw [htext]
      exact ⟨hc2_0, by omega⟩
    have hb2 := length_before_cursor _ hinv2
    unfold TextCursorInv
    simp only [TextCursor.remove_left_word, List.length_append, hb2, ha]
    omega
  · intro hc0
    obtain ⟨txt, cur⟩ := tc
    simp only at hc0
    subst hc0
    unfold TextCursor.remove_left TextCursor.before_cursor
      TextCursor.after_cursor sliceTo sliceFrom pyStop saturating_sub
    norm_num

/-- Witness for C10 at the two-character text `"ab"` with the cursor at 1. -/
theorem text_cursor_ops_preserve_inv_witness :
    TextCursorInv (TextCursor.bump_left ⟨['a', 'b'], 1⟩) ∧
    TextCursorInv (TextCursor.bump_right ⟨['a', 'b'], 1⟩) ∧
    TextCursorInv (TextCursor.jump_to_left ⟨['a', 'b'], 1⟩) ∧
    TextCursorInv (TextCursor.jump_to_right ⟨['a', 'b'], 1⟩) ∧
    (∀ ch : Char, ∃ tc',
      TextCursor.insert ⟨['a', 'b'], 1⟩ [ch] = some tc' ∧ TextCursorInv tc') ∧
    TextCursorInv (TextCursor.remove_left ⟨['a', 'b'], 1⟩) ∧
    TextCursorInv (TextCursor.remove_right ⟨['a', 'b'], 1⟩) ∧
    TextCursorInv (TextCursor.bump_left_by_word ⟨['a', 'b'], 1⟩) ∧
    TextCursorInv (TextCursor.bump_right_by_word ⟨['a', 'b'], 1⟩) ∧
    TextCursorInv (TextCursor.remove_left_word ⟨['a', 'b'], 1⟩) ∧
    ((⟨['a', 'b'], 1⟩ : TextCursor).cursor = 0 →
      TextCursor.remove_left ⟨['a', 'b'], 1⟩ = ⟨['a', 'b'], 1⟩) :=
  text_cursor_ops_preserve_inv ⟨['a', 'b'], 1⟩ (by decide)

end RichTea

namespace RichTea

/-! ## Claim theorems -/

/-- C7: for `0 ≤ position ≤ max`, one saturating step stays inside
`[0, max]`: `saturating_add(position, 1, max)` and
`saturating_sub(position, 1, 0)` never leave `[0, max]`, and at the
boundaries `saturating_add(max, 1, max) = max` and
`saturating_sub(0, 1, 0) = 0`. -/
theorem saturating_step_in_bounds (position mx : ℤ)
    (h0 : 0 ≤ position) (h1 : position ≤ mx) :
    (0 ≤ saturating_add position 1 mx ∧ saturating_add position 1 mx ≤ mx) ∧
    (0 ≤ saturating_sub position 1 0 ∧ saturating_sub position 1 0 ≤ mx) ∧
    saturating_add mx 1 mx = mx ∧ saturating_sub 0 1 0 = 0 := by
  unfold saturating_add saturating_sub
  split_ifs <;> omega

/-- Witness for C7 at `position = 1`, `max = 2`. -/
theorem saturating_step_in_bounds_witness :
    (0 ≤ saturating_add 1 1 2 ∧ saturating_add 1 1 2 ≤ 2) ∧
    (0 ≤ saturating_sub 1 1 0 ∧ saturating_sub 1 1 0 ≤ 2) ∧
    saturating_add 2 1 2 = 2 ∧ saturating_sub 0 1 0 = 0 :=
  saturating_step_in_bounds 1 2 (by decide) (by decide)

/-- C6: the first visible index of the viewport is `0` when
`position < height` and `position - height + 1` otherwise; with height 3,
positions 0, 1, 2 give start 0 and position 5 gives start 3. -/
theorem window_start_law :
    (∀ position height : ℤ,
      window_start position height =
        if position < height then 0 else position - height + 1) ∧
    window_start 0 3 = 0 ∧ window_start 1 3 = 0 ∧ window_start 2 3 = 0 ∧
    window_start 5 3 = 3 := by
  refine ⟨fun position height => ?_, by decide, by decide, by decide, by decide⟩
  unfold window_start
  split_ifs <;> omega

/-- C2: on every exit path of the `for_stdin` raw-mode guard — a normal
return of the body or an exception raised inside the scope — the terminal
attributes after the scope exits equal the snapshot taken by `tcgetattr` at
entry, whatever attribute changes the raw-mode setup and the body made in
between. -/
theorem for_stdin_restores_attrs (A : Type) (raw : A → A) (old : A)
    (body : List (events.TermOp A)) (out : events.Outcome) :
    events.finalAttrs old (events.for_stdin_ops raw old body out) = old := by
  cases out <;>
    simp [events.for_stdin_ops, finalAttrs_append, events.finalAttrs]

/-- C1 counterexample: for a cursor over an empty items list with position
0, `bump_down` is not a no-op — it sets the position to
`max_index([]) = -1`, violating `0 ≤ position`. -/
theorem cursor_empty_bump_down_counterexample :
    (Cursor.bump_down ⟨([] : List String), 0⟩).cursor = -1 ∧
    ¬ CursorInv (Cursor.bump_down ⟨([] : List String), 0⟩) := by
  decide

/-- C1 (amended): for a cursor over a non-empty items list, the invariant
`0 ≤ position ≤ max(0, len(items)-1)` is preserved by every mutator
(`bump_up`, `bump_down`, `jump_to_top`, `jump_to_bottom`); on an empty list
`bump_up` and `jump_to_top` still preserve it, but `bump_down` and
`jump_to_bottom` set the position to `-1`. -/
theorem cursor_mutators_preserve_inv (α : Type) (c : Cursor α)
    (h : CursorInv c) :
    CursorInv c.bump_up ∧ CursorInv c.jump_to_top ∧
    (1 ≤ c.items.length →
      CursorInv c.bump_down ∧ CursorInv c.jump_to_bottom) ∧
    (c.items = [] →
      c.bump_down.cursor = -1 ∧ c.jump_to_bottom.cursor = -1) := by
  obtain ⟨h0, h1⟩ := h
  refine ⟨?_, ?_, fun hne => ⟨?_, ?_⟩, fun he => ⟨?_, ?_⟩⟩ <;>
    simp_all [Cursor.bump_up, Cursor.bump_down, Cursor.jump_to_top,
      Cursor.jump_to_bottom, CursorInv, saturating_add, saturating_sub,
      max_index] <;>
    (try split_ifs) <;> omega

/-- Witness for C1 (amended) at a two-element cursor at position 1. -/
theorem cursor_mutators_preserve_inv_witness :
    CursorInv (Cursor.bump_up (⟨["a", "b"], 1⟩ : Cursor String)) ∧
    CursorInv (Cursor.jump_to_top (⟨["a", "b"], 1⟩ : Cursor String)) ∧
    (1 ≤ (["a", "b"] : List String).length →
      CursorInv (Cursor.bump_down (⟨["a", "b"], 1⟩ : Cursor String)) ∧
      CursorInv (Cursor.jump_to_bottom (⟨["a", "b"], 1⟩ : Cursor String))) ∧
    ((["a", "b"] : List String) = [] →
      (Cursor.bump_down (⟨["a", "b"], 1⟩ : Cursor String)).cursor = -1 ∧
      (Cursor.jump_to_bottom (⟨["a", "b"], 1⟩ : Cursor String)).cursor = -1) :=
  cursor_mutators_preserve_inv String ⟨["a", "b"], 1⟩ (by decide)

/-- C5 counterexample: in `list_viewer_safe` (`rich_elm/list_select.py`) an
unmapped printable key — here the character `"x"` on a one-item list — is
silently dropped (the loop continues with the state unchanged) instead of
being rejected as an unsupported key. -/
theorem unmapped_char_silently_ignored :
    list_select.step ⟨[⟨"a", false⟩], 0⟩ (.char "x") =
      some (.next ⟨[⟨"a", false⟩], 0⟩) ∧
    some (list_select.Step.next ⟨[⟨"a", false⟩], 0⟩) ≠
      some list_select.Step.notImplemented := by
  decide

/-- C5 (amended): in `list_viewer_safe` every `Keys` event outside the
handled set (`Up`, `Down`, `Left`, `Right`, `Home`, `End`, `Tab`, `Enter`)
raises `NotImplementedError`, but a printable-character event other than
`"q"` is silently ignored: the loop continues with the state unchanged. -/
theorem step_rejects_unmapped_control_keys (state : Cursor (Select String))
    (k : list_select.Keys)
    (hk : k ∉ [list_select.Keys.up, .down, .left, .right, .home, .endKey,
               .tab, .enter]) :
    list_select.step state (.key k) = some .notImplemented ∧
    ∀ s : String, s ≠ "q" →
      list_select.step state (.char s) = some (.next state) := by
  constructor
  · cases k <;> simp_all [list_select.step]
  · intro s hs
    simp [list_select.step, hs]

/-- Witness for C5 (amended) at the `Escape` key on a one-item state. -/
theorem step_rejects_unmapped_control_keys_witness :
    list_select.step ⟨[⟨"a", false⟩], 0⟩ (.key .escape) =
      some .notImplemented ∧
    ∀ s : String, s ≠ "q" →
      list_select.step ⟨[⟨"a", false⟩], 0⟩ (.char s) =
        some (.next ⟨[⟨"a", false⟩], 0⟩) :=
  step_rejects_unmapped_control_keys ⟨[⟨"a", false⟩], 0⟩ .escape (by decide)

/-- C8: toggling the item at the cursor flips only that item's `selected`
flag — its wrapped value and every other item are unchanged, and the cursor
is unchanged — and a second toggle restores the original state exactly. -/
theorem toggle_current_spec (v : list_view.ListView)
    (orig : list_view.Select String)
    (h0 : 0 ≤ v.cursor) (hl : v.cursor.toNat < v.candidates.length)
    (horig : v.candidates.get? v.cursor.toNat = some orig) :
    ∃ v', v.toggle_current = some v' ∧
      v'.candidates.get? v.cursor.toNat =
        some { orig with selected := !orig.selected } ∧
      (∀ j, j ≠ v.cursor.toNat →
        v'.candidates.get? j = v.candidates.get? j) ∧
      v'.cursor = v.cursor ∧
      v'.toggle_current = some v := by
  have hcur : v.cursor < (v.candidates.length : ℤ) := by omega
  have hpy : pyIdx v.candidates.length v.cursor = some v.cursor.toNat := by
    simp [pyIdx, h0, hcur]
  have hl' : v.cursor.toNat < v.candidates.length := hl
  have horig' : v.candidates[v.cursor.toNat]? = some orig := by
    rw [← List.get?_eq_getElem?]; exact horig
  have hstep : v.toggle_current =
      some { v with candidates := (v.candidates.set v.cursor.toNat
               { orig with selected := !orig.selected }) } := by
    simp [list_view.ListView.toggle_current, hpy, horig']
  refine ⟨_, hstep, ?_, ?_, rfl, ?_⟩
  · rw [List.get?_eq_getElem?, List.getElem?_set_self hl']
  · intro j hj
    rw [List.get?_eq_getElem?, List.get?_eq_getElem?,
      List.getElem?_set_ne (Ne.symm hj)]
  · have hget2 : (v.candidates.set v.cursor.toNat
        { orig with selected := !orig.selected })[v.cursor.toNat]? =
        some { orig with selected := !orig.selected } :=
      List.getElem?_set_self hl'
    have hself : v.candidates.set v.cursor.toNat orig = v.candidates := by
      apply List.ext_getElem?
      intro j
      by_cases hj : j = v.cursor.toNat
      · subst hj
        rw [List.getElem?_set_self hl']
        exact horig'.symm
      · rw [List.getElem?_set_ne (Ne.symm hj)]
    have heta : ({ inner := orig.inner, selected := orig.selected } :
        list_view.Select String) = orig := rfl
    simp [list_view.ListView.toggle_current, hpy, hget2, heta, hself]

/-- Witness for C8 at a two-item list with the cursor on the first item. -/
theorem toggle_current_spec_witness :
    ∃ v', (list_view.ListView.toggle_current ⟨[⟨"a", false⟩, ⟨"b", true⟩], 0⟩) =
        some v' ∧
      v'.candidates.get? (0 : ℤ).toNat =
        some { list_view.Select.mk "a" false with selected := !false } ∧
      (∀ j, j ≠ (0 : ℤ).toNat →
        v'.candidates.get? j =
          (list_view.ListView.mk [⟨"a", false⟩, ⟨"b", true⟩] 0).candidates.get? j) ∧
      v'.cursor = 0 ∧
      v'.toggle_current = some ⟨[⟨"a", false⟩, ⟨"b", true⟩], 0⟩ :=
  toggle_current_spec ⟨[⟨"a", false⟩, ⟨"b", true⟩], 0⟩ ⟨"a", false⟩
    (by decide) (by decide) (by decide)

end RichTea
